import Mathlib

/-!
Shallow embedding of the `Derived` operator of the Vitess query planner
(`go/vt/vtgate/planbuilder/operators/derived.go`) and proofs about its
column-resolution, column-pushdown, predicate-pushdown, cloning and
query-projection behaviour.

Go's mutation-in-place is modelled by explicit state passing: every
operation that mutates the receiver returns the updated node.  Errors are
modelled with `Except`.  External collaborators (the semantic context, the
source operator's own `AddPredicate`/`AddColumn`) are abstracted as oracle
fields of a context / operator-semantics record, mirroring the fact that
semantic analysis and the other operator variants are outside this file.
-/

set_option autoImplicit false

deriving instance DecidableEq for Except

namespace Vitess

/-- A column reference (`sqlparser.ColName`): a name possibly qualified by a
table. `findOutputColumn` compares only the name; the semantic-context
equality may also distinguish qualifiers. -/
structure ColName where
  qualifier : String
  name : String
deriving DecidableEq, Repr

/-- SQL expressions (`sqlparser.Expr`), restricted to the shapes the Derived
operator inspects: column references, literals, the `Max`/`Min` aggregates,
any other aggregate function (`sqlparser.AggrFunc` other than `Max`/`Min`),
and binary composite nodes (comparisons, arithmetic, ...). -/
inductive Expr where
  | col (c : ColName)
  | lit (n : Int)
  | maxAgg (arg : Expr)
  | minAgg (arg : Expr)
  | aggr (fname : String) (arg : Expr)
  | bin (op : String) (l r : Expr)
deriving DecidableEq, Repr

/-- `sqlparser.AliasedExpr`: an expression with an optional alias
(`As` empty in Go is `none` here). -/
structure AliasedExpr where
  expr : Expr
  asIdent : Option String
deriving DecidableEq, Repr

/-- A select-list item (`sqlparser.SelectExpr`): an aliased expression or a
star (`*`) projection. -/
inductive SelectExpr where
  | aliasedE (ae : AliasedExpr)
  | star
deriving DecidableEq, Repr

/-- The top-level part of a `SELECT` the Derived node reads: its select
list. -/
structure Select where
  selectExprs : List SelectExpr
deriving DecidableEq, Repr

/-- `sqlparser.SelectStatement`: a plain select or a union of two select
statements. -/
inductive SelectStatement where
  | select (s : Select)
  | union (l r : SelectStatement)
deriving DecidableEq, Repr

/-- `sqlparser.GetFirstSelect`: the leftmost plain select of a possibly
compound statement. -/
def GetFirstSelect : SelectStatement → Select
  | .select s => s
  | .union l _ => GetFirstSelect l

/-- An ordering item (`ops.OrderBy`), kept abstract. -/
abbrev OrderBy := Nat

/-- `QueryProjection`: the memoized decomposition of a select; only its
`OrderExprs` field is read by the code under study. -/
structure QueryProjection where
  OrderExprs : List OrderBy
deriving DecidableEq, Repr

/-- The planner error values produced or inspected by the embedded code:
`VT12001` (unsupported feature), `VT03014` (unknown column), `VT13001`
(internal invariant violation), the distinguished
`semantics.ErrNotSingleTable`, and any other error bubbling up from a
collaborator. -/
inductive VtError where
  | vt12001 (msg : String)
  | vt03014 (col : String) (loc : String)
  | vt13001 (msg : String)
  | errNotSingleTable
  | otherErr (msg : String)
deriving DecidableEq, Repr

/-- Modelled from the spec: `vterrors` classifies `VT13001` as an
internal/assertion-class error (a planner bug), while `VT12001`
(unsupported feature) and `VT03014` (unknown column) are user-facing
query-compilation errors. -/
def VtError.isInternal : VtError → Bool
  | .vt13001 _ => true
  | _ => false

/-- The table-info value returned by the semantic table; kept abstract. -/
abbrev TableInfo := Nat

/-- The semantic context threaded into every operation
(`plancontext.PlanningContext` plus the `semantics` helpers it exposes).
All four operations are external collaborators (semantic analysis and the
query-projection builder live outside the Derived operator), so they are
abstracted as oracle fields. -/
structure Ctx where
  TableInfoForExpr : Expr → Except VtError TableInfo
  RewriteDerivedTableExpression : Expr → TableInfo → Expr
  EqualsExprWithDeps : Expr → Expr → Bool
  CreateQPFromSelect : Select → Except VtError QueryProjection

/-- The behaviour of the source operator installed under a Derived node.
`α` is the (abstract) type of the source operator; `isUnion` models Go's
`*Union` type test, and the two push operations model the source's own
implementations of the operator contract. -/
structure OpSem (α : Type) where
  isUnion : α → Bool
  addPredicate : Ctx → α → Expr → Except VtError α
  addColumn : Ctx → α → AliasedExpr → Bool → Bool → Except VtError (α × Nat)

/-- The `Derived` operator node, fields as in the Go struct. `α` is the
type of the source operator. -/
structure Derived (α : Type) where
  Source : α
  TableId : Nat
  QP : Option QueryProjection
  Query : SelectStatement
  Alias : String
  ColumnAliases : List String
  Columns : List ColName
  ColumnsOffset : List Int
deriving DecidableEq, Repr

/-- Result of `Derived.AddPredicate`: either the (possibly updated) Derived
node itself, or a new `Filter` node wrapping it (whose `Source` is the
Derived node and whose `Predicates` hold the unabsorbed expressions). -/
inductive PredResult (α : Type) where
  | derivedR (d : Derived α)
  | filterR (source : Derived α) (predicates : List Expr)
deriving DecidableEq, Repr

/-- Helper `aeWrap`: wrap an expression as an alias-less `AliasedExpr`. -/
def aeWrap (e : Expr) : AliasedExpr := ⟨e, none⟩

/-- `sqlparser.NewColName`: a fresh unqualified column reference. -/
def NewColName (s : String) : ColName := ⟨"", s⟩

/-- Worker for `canReuseColumn`: scan with a running index. -/
def canReuseColumnAux {T : Type} (ctx : Ctx) (col : Expr) (f : T → Expr) :
    List T → Nat → Option Nat
  | [], _ => none
  | c :: rest, i =>
    if ctx.EqualsExprWithDeps col (f c) then some i
    else canReuseColumnAux ctx col f rest (i + 1)

/-- `canReuseColumn`: the first index of `columns` whose image under `f` is
semantically equal to `col` under the context's equivalence test, if any. -/
def canReuseColumn {T : Type} (ctx : Ctx) (columns : List T) (col : Expr)
    (f : T → Expr) : Option Nat :=
  canReuseColumnAux ctx col f columns 0

/-- Worker for `addToIntSlice`: index of the first occurrence of `v`. -/
def findIntAux (v : Int) : List Int → Nat → Option Nat
  | [], _ => none
  | x :: rest, i => if x = v then some i else findIntAux v rest (i + 1)

/-- `addToIntSlice`: return the slice and the index of `valToAdd` in it,
appending `valToAdd` only when it is not already present. -/
def addToIntSlice (columnOffset : List Int) (valToAdd : Int) :
    List Int × Nat :=
  match findIntAux valToAdd columnOffset 0 with
  | some idx => (columnOffset, idx)
  | none => (columnOffset ++ [valToAdd], columnOffset.length)

/-- Worker for `findOutputColumn`: scan the select list with the running
index `j` and the star-seen flag. -/
def findOutputColumnAux (name : ColName) :
    List SelectExpr → Nat → Bool → Except VtError Int
  | [], _, hasStar =>
    if hasStar then .ok (-1)
    else .error (.vt03014 name.name "field list")
  | .aliasedE ae :: rest, j, hasStar =>
    match ae.asIdent with
    | some a =>
      if a = name.name then .ok (Int.ofNat j)
      else findOutputColumnAux name rest (j + 1) hasStar
    | none =>
      match ae.expr with
      | .col c =>
        if name.name = c.name then .ok (Int.ofNat j)
        else findOutputColumnAux name rest (j + 1) hasStar
      | _ => .error (.vt12001 "complex expression needs column alias")
  | .star :: rest, j, _ => findOutputColumnAux name rest (j + 1) true

/-- `findOutputColumn` on a select list (the Go method reads only
`d.Query`). -/
def findOutputColumnQ (q : SelectStatement) (name : ColName) :
    Except VtError Int :=
  findOutputColumnAux name (GetFirstSelect q).selectExprs 0 false

/-- `Derived.findOutputColumn`: the index at which `name` is found in the
first select's select list, `-1` when unmatched but a star is present, an
unknown-column error when unmatched without a star. -/
def Derived.findOutputColumn {α : Type} (d : Derived α) (name : ColName) :
    Except VtError Int :=
  findOutputColumnQ d.Query name

/-- `canBePushedDownIntoDerived`: walk the expression; `false` iff some node
is an aggregate function other than `Max`/`Min` (the walk descends into
`Max`/`Min` arguments). -/
def canBePushedDownIntoDerived : Expr → Bool
  | .col _ => true
  | .lit _ => true
  | .maxAgg a => canBePushedDownIntoDerived a
  | .minAgg a => canBePushedDownIntoDerived a
  | .aggr _ _ => false
  | .bin _ l r => canBePushedDownIntoDerived l && canBePushedDownIntoDerived r

/-- `Derived.AddPredicate`: delegate to a union source; otherwise attribute
the expression to a single table, rewrite it into the subquery's scope, and
push it into the source unless it contains a disallowed aggregate, in which
case (or when attribution fails with `ErrNotSingleTable`) wrap the node in
a `Filter`. -/
def Derived.AddPredicate {α : Type} (sem : OpSem α) (ctx : Ctx)
    (d : Derived α) (expr : Expr) : Except VtError (PredResult α) :=
  if sem.isUnion d.Source then
    match sem.addPredicate ctx d.Source expr with
    | .ok newSrc => .ok (.derivedR { d with Source := newSrc })
    | .error e => .error e
  else
    match ctx.TableInfoForExpr expr with
    | .error e =>
      if e = .errNotSingleTable then .ok (.filterR d [expr])
      else .error e
    | .ok tableInfo =>
      let newExpr := ctx.RewriteDerivedTableExpression expr tableInfo
      if canBePushedDownIntoDerived newExpr then
        match sem.addPredicate ctx d.Source newExpr with
        | .ok newSrc => .ok (.derivedR { d with Source := newSrc })
        | .error e => .error e
      else .ok (.filterR d [expr])

/-- `Derived.AddColumn`: reject non-column expressions; reuse a semantically
equal column when present; otherwise resolve the name against the
subquery's select list, record the resolved index in `ColumnsOffset`
(deduplicating), append the column to `Columns`, and push the column into
the source when it is only satisfiable through a wildcard. -/
def Derived.AddColumn {α : Type} (sem : OpSem α) (ctx : Ctx)
    (d : Derived α) (expr : AliasedExpr) (_reuse addToGroupBy : Bool) :
    Except VtError (Derived α × Nat) :=
  match expr.expr with
  | .col col =>
    match canReuseColumn ctx d.Columns (.col col) (fun c => .col c) with
    | some offset => .ok (d, offset)
    | none =>
      match d.findOutputColumn col with
      | .error e => .error e
      | .ok i =>
        let res := addToIntSlice d.ColumnsOffset i
        let d1 := { d with ColumnsOffset := res.1,
                           Columns := d.Columns ++ [col] }
        if i ≤ -1 then
          match sem.addColumn ctx d1.Source
              (aeWrap (.col (NewColName col.name))) true addToGroupBy with
          | .error e => .error e
          | .ok (newSrc, _) => .ok ({ d1 with Source := newSrc }, res.2)
        else .ok (d1, res.2)
  | _ => .error (.vt13001 "cannot push non-colname expression to a derived table")

/-- `sqlparser.CloneColumns`: deep copy of the column-alias list (contents
preserved). -/
def CloneColumns (c : List String) : List String := c

/-- `Derived.Clone`: a new node with the given inputs installed as source,
`Query`, `Alias` and `TableId` carried over, the three list fields copied,
and `QP` left at its zero value (`none`). -/
def Derived.Clone {α : Type} (d : Derived α) (inputs : List α)
    (h : inputs ≠ []) : Derived α :=
  { Source := inputs.head h
    Query := d.Query
    Alias := d.Alias
    ColumnAliases := CloneColumns d.ColumnAliases
    Columns := d.Columns
    ColumnsOffset := d.ColumnsOffset
    TableId := d.TableId
    QP := none }

/-- `Derived.GetOrdering`: the cached query projection's order list; an
internal error when the cache has not been populated. -/
def Derived.GetOrdering {α : Type} (d : Derived α) :
    Except VtError (List OrderBy) :=
  match d.QP with
  | none => .error (.vt13001 "QP should already be here")
  | some qp => .ok qp.OrderExprs

/-- `Derived.getQP`: return the cached query projection, or build it from
the subquery's select (the Go code's type assertion `d.Query.(*Select)`
panics on a union; the panic is modelled as an internal error). -/
def Derived.getQP {α : Type} (ctx : Ctx) (d : Derived α) :
    Except VtError (QueryProjection × Derived α) :=
  match d.QP with
  | some qp => .ok (qp, d)
  | none =>
    match d.Query with
    | .select s =>
      match ctx.CreateQPFromSelect s with
      | .ok qp => .ok (qp, { d with QP := some qp })
      | .error e => .error e
    | .union _ _ => .error (.vt13001 "type assertion failed")

/-! ### Heap model for slice aliasing (Clone independence)

Go slices are references into mutable backing arrays; `slices.Clone` and
`CloneColumns` allocate fresh backing arrays.  To state that the clone and
the original share no mutable container, the three slice-valued fields are
modelled as references into an explicit store, and `Clone` as the
allocation of fresh references holding copies of the current contents. -/

/-- The store of backing arrays for the three slice-valued fields; a
reference is an index into the respective list. -/
structure Store where
  colArrays : List (List ColName)
  intArrays : List (List Int)
  strArrays : List (List String)
deriving DecidableEq, Repr

def Store.getCols (st : Store) (r : Nat) : List ColName := st.colArrays.getD r []

def Store.getInts (st : Store) (r : Nat) : List Int := st.intArrays.getD r []

def Store.getStrs (st : Store) (r : Nat) : List String := st.strArrays.getD r []

def Store.allocCols (st : Store) (v : List ColName) : Store × Nat :=
  ({ st with colArrays := st.colArrays ++ [v] }, st.colArrays.length)

def Store.allocInts (st : Store) (v : List Int) : Store × Nat :=
  ({ st with intArrays := st.intArrays ++ [v] }, st.intArrays.length)

def Store.allocStrs (st : Store) (v : List String) : Store × Nat :=
  ({ st with strArrays := st.strArrays ++ [v] }, st.strArrays.length)

/-- Overwrite the array behind a reference (the general in-place mutation;
an append through a slice reference is the special case
`setCols r (getCols r ++ [c])`). -/
def Store.setCols (st : Store) (r : Nat) (v : List ColName) : Store :=
  { st with colArrays := st.colArrays.set r v }

def Store.setInts (st : Store) (r : Nat) (v : List Int) : Store :=
  { st with intArrays := st.intArrays.set r v }

def Store.setStrs (st : Store) (r : Nat) (v : List String) : Store :=
  { st with strArrays := st.strArrays.set r v }

/-- The `Derived` node with its three slice-valued fields as store
references, and its source as an opaque operator id. -/
structure DerivedH where
  Source : Nat
  TableId : Nat
  QP : Option QueryProjection
  Query : SelectStatement
  Alias : String
  ColumnAliasesRef : Nat
  ColumnsRef : Nat
  ColumnsOffsetRef : Nat
deriving DecidableEq, Repr

/-- `Derived.Clone` in the heap model: fresh backing arrays are allocated
for `ColumnAliases` (via `CloneColumns`), `Columns` and `ColumnsOffset`
(via `slices.Clone`), each holding a copy of the original's current
contents; `Query`, `Alias` and `TableId` are carried over; `Source` is
taken from the supplied input; `QP` is left at its zero value. -/
def DerivedH.Clone (st : Store) (d : DerivedH) (input : Nat) :
    Store × DerivedH :=
  let a1 := st.allocStrs (CloneColumns (st.getStrs d.ColumnAliasesRef))
  let a2 := a1.1.allocCols (a1.1.getCols d.ColumnsRef)
  let a3 := a2.1.allocInts (a2.1.getInts d.ColumnsOffsetRef)
  (a3.1,
   { Source := input
     Query := d.Query
     Alias := d.Alias
     ColumnAliasesRef := a1.2
     ColumnsRef := a2.2
     ColumnsOffsetRef := a3.2
     TableId := d.TableId
     QP := none })

/-! ### Spec-side predicates

These follow the claims' wording and are compared against the functions
embedded from the source. -/

/-- Spec-side: the expression contains an aggregate function node that is
neither `Max` nor `Min` (the aggregate-safety condition of §4.4). -/
def containsBannedAggr : Expr → Bool
  | .col _ => false
  | .lit _ => false
  | .maxAgg a => containsBannedAggr a
  | .minAgg a => containsBannedAggr a
  | .aggr _ _ => true
  | .bin _ l r => containsBannedAggr l || containsBannedAggr r

/-- Spec-side: the select item matches the requested name — its explicit
alias equals the name, or it has no alias and its expression is a bare
column reference with that name. -/
def matchesItem (name : ColName) : SelectExpr → Bool
  | .aliasedE ae =>
    match ae.asIdent with
    | some a => a = name.name
    | none =>
      match ae.expr with
      | .col c => name.name = c.name
      | _ => false
  | .star => false

/-- Spec-side: the select item is an alias-less item whose expression is
not a bare column reference (the shape that forces the
complex-expression-needs-alias error). -/
def complexNoAlias : SelectExpr → Bool
  | .aliasedE ae =>
    match ae.asIdent with
    | some _ => false
    | none =>
      match ae.expr with
      | .col _ => false
      | _ => true
  | .star => false

/-- Spec-side: the select list contains a star projection somewhere. -/
def hasStarIn : List SelectExpr → Bool
  | [] => false
  | .star :: _ => true
  | _ :: rest => hasStarIn rest

/-- Spec-side: the index of the first select item matching `name` in
declaration order, if any. -/
def firstMatchIdx (name : ColName) : List SelectExpr → Option Nat
  | [] => none
  | item :: rest =>
    if matchesItem name item then some 0
    else (firstMatchIdx name rest).map (· + 1)

/-! ### Concrete instances used to evaluate the definitions -/

/-- A concrete semantic context: attribution always succeeds, rewriting is
the identity, semantic equality is syntactic equality, and the query
projection of any select is empty. -/
def ctxW : Ctx where
  TableInfoForExpr := fun _ => .ok (0 : Nat)
  RewriteDerivedTableExpression := fun e _ => e
  EqualsExprWithDeps := fun a b => decide (a = b)
  CreateQPFromSelect := fun _ => .ok ⟨[]⟩

/-- A concrete semantic context whose attribution always fails with the
distinguished not-single-table condition. -/
def ctxNS : Ctx where
  TableInfoForExpr := fun _ => .error .errNotSingleTable
  RewriteDerivedTableExpression := fun e _ => e
  EqualsExprWithDeps := fun a b => decide (a = b)
  CreateQPFromSelect := fun _ => .ok ⟨[]⟩

/-- A concrete non-union source operator (of trivial state) that absorbs
every predicate and column request. -/
def semW : OpSem Unit where
  isUnion := fun _ => false
  addPredicate := fun _ s _ => .ok s
  addColumn := fun _ s _ _ _ => .ok (s, 0)

def yCol : ColName := ⟨"", "y"⟩

def zCol : ColName := ⟨"", "z"⟩

def t1a : ColName := ⟨"t1", "a"⟩

def t2a : ColName := ⟨"t2", "a"⟩

/-- `SELECT * FROM ...` as the subquery. -/
def qStar : SelectStatement := .select ⟨[.star]⟩

/-- `SELECT a FROM ...` as the subquery. -/
def qA : SelectStatement := .select ⟨[.aliasedE ⟨.col ⟨"", "a"⟩, none⟩]⟩

/-- `SELECT 1 + 1, * FROM ...`: an alias-less complex item before a star. -/
def qCplx : SelectStatement :=
  .select ⟨[.aliasedE ⟨.bin "+" (.lit 1) (.lit 1), none⟩, .star]⟩

/-- A fresh Derived node over `SELECT *` with no demanded columns. -/
def dEmpty : Derived Unit :=
  ⟨(), 0, none, qStar, "dt", [], [], []⟩

/-- `dEmpty` after a successful `AddColumn` for `y` (resolved through the
wildcard, offset slot `-1`). -/
def dY : Derived Unit :=
  { dEmpty with Columns := [yCol], ColumnsOffset := [-1] }

/-- `dY` after a successful `AddColumn` for `z`: `Columns` grew but the
`-1` offset slot was deduplicated. -/
def dYZ : Derived Unit :=
  { dEmpty with Columns := [yCol, zCol], ColumnsOffset := [-1] }

/-- A fresh Derived node over `SELECT a`. -/
def dQA : Derived Unit :=
  ⟨(), 0, none, qA, "dt", [], [], []⟩

/-- A fresh Derived node over `SELECT 1 + 1, *`. -/
def dCplx : Derived Unit :=
  ⟨(), 0, none, qCplx, "dt", [], [], []⟩

/-- A Derived node whose query projection cache is already populated. -/
def dQPsome : Derived Unit :=
  { dEmpty with QP := some ⟨[3]⟩ }

/-- A singleton input list for `Clone`. -/
def unitInputs : List Unit := [()]

def unitInputsNe : unitInputs ≠ [] := by
  intro h
  simp [unitInputs] at h

/-- A concrete store with one backing array of each kind. -/
def st0 : Store := ⟨[[⟨"", "c"⟩]], [[0]], [["x"]]⟩

/-- A concrete heap-model Derived node whose three slice fields point at
the arrays of `st0`. -/
def dH0 : DerivedH := ⟨0, 0, none, qStar, "dt", 0, 0, 0⟩

/-! ### Generic list lemmas used by the store model -/

theorem listGetD_append_lt {β : Type} (l m : List β) (r : Nat) (dflt : β)
    (h : r < l.length) : (l ++ m).getD r dflt = l.getD r dflt := by
  induction l generalizing r with
  | nil => simp at h
  | cons a t ih =>
    cases r with
    | zero => rfl
    | succ r' =>
      simp only [List.cons_append, List.getD_cons_succ]
      exact ih r' (by simpa using h)

theorem listGetD_append_self {β : Type} (l : List β) (v dflt : β) :
    (l ++ [v]).getD l.length dflt = v := by
  induction l with
  | nil => rfl
  | cons a t ih => simp [ih]

theorem listGetD_set_ne {β : Type} (l : List β) (r' r : Nat) (v dflt : β)
    (h : r' ≠ r) : (l.set r' v).getD r dflt = l.getD r dflt := by
  induction l generalizing r r' with
  | nil => rfl
  | cons a t ih =>
    cases r' with
    | zero =>
      cases r with
      | zero => exact absurd rfl h
      | succ r2 => rfl
    | succ r1 =>
      cases r with
      | zero => rfl
      | succ r2 =>
        simp only [List.set_cons_succ, List.getD_cons_succ]
        exact ih r1 r2 (fun hh => h (by rw [hh]))

/-! ### Lemmas about `canReuseColumn` -/

theorem canReuseColumnAux_congr {T : Type} (ctx : Ctx) (col col' : Expr)
    (f : T → Expr) (l : List T) (i : Nat)
    (hc : ∀ e, ctx.EqualsExprWithDeps col' e = ctx.EqualsExprWithDeps col e) :
    canReuseColumnAux ctx col' f l i = canReuseColumnAux ctx col f l i := by
  induction l generalizing i with
  | nil => rfl
  | cons c rest ih =>
    simp only [canReuseColumnAux, hc (f c)]
    exact if h : ctx.EqualsExprWithDeps col (f c) then by simp [h] else by simp [h, ih]

theorem canReuseColumnAux_none {T : Type} (ctx : Ctx) (col : Expr)
    (f : T → Expr) (l : List T) (i : Nat)
    (h : canReuseColumnAux ctx col f l i = none) :
    ∀ c ∈ l, ctx.EqualsExprWithDeps col (f c) = false := by
  induction l generalizing i with
  | nil => intro c hc; simp at hc
  | cons a rest ih =>
    intro c hc
    by_cases ha : ctx.EqualsExprWithDeps col (f a) = true
    · simp [canReuseColumnAux, ha] at h
    · rcases List.mem_cons.mp hc with hh | hh
      · subst hh; simpa using ha
      · have h2 : canReuseColumnAux ctx col f rest (i + 1) = none := by
          simpa [canReuseColumnAux, ha] using h
        exact ih (i + 1) h2 c hh

theorem canReuseColumnAux_append_last {T : Type} (ctx : Ctx) (col : Expr)
    (f : T → Expr) (l : List T) (c : T) (i : Nat)
    (h : canReuseColumnAux ctx col f l i = none)
    (hc : ctx.EqualsExprWithDeps col (f c) = true) :
    canReuseColumnAux ctx col f (l ++ [c]) i = some (i + l.length) := by
  induction l generalizing i with
  | nil => simp [canReuseColumnAux, hc]
  | cons a rest ih =>
    cases ha : ctx.EqualsExprWithDeps col (f a) with
    | true => simp [canReuseColumnAux, ha] at h
    | false =>
      have h2 : canReuseColumnAux ctx col f rest (i + 1) = none := by
        simpa [canReuseColumnAux, ha] using h
      have h3 := ih (i + 1) h2
      simp only [List.cons_append, canReuseColumnAux, ha, Bool.false_eq_true,
        if_false, List.append_eq, h3, List.length_cons, Option.some.injEq]
      omega

theorem canReuseColumn_congr {T : Type} (ctx : Ctx) (col col' : Expr)
    (f : T → Expr) (l : List T)
    (hc : ∀ e, ctx.EqualsExprWithDeps col' e = ctx.EqualsExprWithDeps col e) :
    canReuseColumn ctx l col' f = canReuseColumn ctx l col f :=
  canReuseColumnAux_congr ctx col col' f l 0 hc

theorem canReuseColumn_append_last {T : Type} (ctx : Ctx) (col : Expr)
    (f : T → Expr) (l : List T) (c : T)
    (h : canReuseColumn ctx l col f = none)
    (hc : ctx.EqualsExprWithDeps col (f c) = true) :
    canReuseColumn ctx (l ++ [c]) col f = some l.length := by
  have := canReuseColumnAux_append_last ctx col f l c 0 h hc
  simpa [canReuseColumn] using this

/-! ### Lemmas about `addToIntSlice` -/

theorem findIntAux_none (v : Int) (l : List Int) (i : Nat)
    (h : v ∉ l) : findIntAux v l i = none := by
  induction l generalizing i with
  | nil => rfl
  | cons a rest ih =>
    have ha : a ≠ v := fun hh => h (hh ▸ List.mem_cons_self a rest)
    simp only [findIntAux, ha, if_false]
    exact ih (i + 1) (fun hh => h (List.mem_cons_of_mem a hh))

theorem findIntAux_append_self (v : Int) (l : List Int) (i : Nat)
    (h : v ∉ l) : findIntAux v (l ++ [v]) i = some (i + l.length) := by
  induction l generalizing i with
  | nil => simp [findIntAux]
  | cons a rest ih =>
    have ha : a ≠ v := fun hh => h (hh ▸ List.mem_cons_self a rest)
    have h2 : v ∉ rest := fun hh => h (List.mem_cons_of_mem a hh)
    rw [List.cons_append, findIntAux, if_neg ha, ih (i + 1) h2]
    simp only [List.length_cons, Option.some.injEq]
    omega

theorem addToIntSlice_not_mem (l : List Int) (v : Int) (h : v ∉ l) :
    addToIntSlice l v = (l ++ [v], l.length) := by
  simp [addToIntSlice, findIntAux_none v l 0 h]

theorem addToIntSlice_append_self (l : List Int) (v : Int) (h : v ∉ l) :
    addToIntSlice (l ++ [v]) v = (l ++ [v], l.length) := by
  simp [addToIntSlice, findIntAux_append_self v l 0 h]

/-! ### Characterization of `findOutputColumn` -/

theorem findOutputColumnAux_chars (name : ColName) (l : List SelectExpr)
    (hgood : ∀ item ∈ l, complexNoAlias item = false) (j : Nat) (hs : Bool) :
    (firstMatchIdx name l = none →
      findOutputColumnAux name l j hs =
        if hs || hasStarIn l then .ok (-1)
        else .error (.vt03014 name.name "field list")) ∧
    (∀ k, firstMatchIdx name l = some k →
      findOutputColumnAux name l j hs = .ok (Int.ofNat (j + k))) := by
  induction l generalizing j hs with
  | nil =>
    refine ⟨fun _ => ?_, fun k hk => by simp [firstMatchIdx] at hk⟩
    cases hs <;> simp [findOutputColumnAux, hasStarIn]
  | cons item rest ih =>
    have hgr : ∀ it ∈ rest, complexNoAlias it = false :=
      fun it hit => hgood it (List.mem_cons_of_mem item hit)
    have hgi : complexNoAlias item = false := hgood item (List.mem_cons_self item rest)
    cases item with
    | star =>
      have hm : matchesItem name SelectExpr.star = false := rfl
      constructor
      · intro hnone
        have hr : firstMatchIdx name rest = none := by
          simpa [firstMatchIdx, hm] using hnone
        have := (ih hgr (j + 1) true).1 hr
        simpa [findOutputColumnAux, hasStarIn] using this
      · intro k hk
        rw [firstMatchIdx] at hk
        simp only [hm, Bool.false_eq_true, if_false, Option.map_eq_some'] at hk
        obtain ⟨k', hk', rfl⟩ := hk
        have := (ih hgr (j + 1) true).2 k' hk'
        rw [findOutputColumnAux, this]
        simp only [Except.ok.injEq, Int.ofNat.injEq]
        omega
    | aliasedE ae =>
      obtain ⟨e, asi⟩ := ae
      cases asi with
      | some a =>
        by_cases ha : a = name.name
        · have hm : matchesItem name (.aliasedE ⟨e, some a⟩) = true := by
            simp [matchesItem, ha]
          constructor
          · intro hnone; rw [firstMatchIdx] at hnone; simp [hm] at hnone
          · intro k hk
            rw [firstMatchIdx] at hk
            simp only [hm, if_true, Option.some.injEq] at hk
            subst hk
            simp [findOutputColumnAux, ha]
        · have hm : matchesItem name (.aliasedE ⟨e, some a⟩) = false := by
            simp [matchesItem, ha]
          have hstep : ∀ (j' : Nat) (hs' : Bool),
              findOutputColumnAux name (SelectExpr.aliasedE ⟨e, some a⟩ :: rest) j' hs' =
                findOutputColumnAux name rest (j' + 1) hs' := by
            intro j' hs'; simp [findOutputColumnAux, ha]
          constructor
          · intro hnone
            have hr : firstMatchIdx name rest = none := by
              simpa [firstMatchIdx, hm] using hnone
            have := (ih hgr (j + 1) hs).1 hr
            rw [hstep j hs, this]
            cases hs <;> simp [hasStarIn]
          · intro k hk
            rw [firstMatchIdx] at hk
            simp only [hm, Bool.false_eq_true, if_false, Option.map_eq_some'] at hk
            obtain ⟨k', hk', rfl⟩ := hk
            have := (ih hgr (j + 1) hs).2 k' hk'
            rw [hstep j hs, this]
            simp only [Except.ok.injEq, Int.ofNat.injEq]
            omega
      | none =>
        obtain ⟨c, hcol⟩ : ∃ c, e = Expr.col c := by
          cases e with
          | col c => exact ⟨c, rfl⟩
          | lit n => simp [complexNoAlias] at hgi
          | maxAgg a => simp [complexNoAlias] at hgi
          | minAgg a => simp [complexNoAlias] at hgi
          | aggr f a => simp [complexNoAlias] at hgi
          | bin op x y => simp [complexNoAlias] at hgi
        subst hcol
        by_cases hn : name.name = c.name
        · have hm : matchesItem name (.aliasedE ⟨Expr.col c, none⟩) = true := by
            simp [matchesItem, hn]
          constructor
          · intro hnone; rw [firstMatchIdx] at hnone; simp [hm] at hnone
          · intro k hk
            rw [firstMatchIdx] at hk
            simp only [hm, if_true, Option.some.injEq] at hk
            subst hk
            simp [findOutputColumnAux, hn]
        · have hm : matchesItem name (.aliasedE ⟨Expr.col c, none⟩) = false := by
            simp [matchesItem, hn]
          have hstep : ∀ (j' : Nat) (hs' : Bool),
              findOutputColumnAux name (SelectExpr.aliasedE ⟨Expr.col c, none⟩ :: rest) j' hs' =
                findOutputColumnAux name rest (j' + 1) hs' := by
            intro j' hs'; simp [findOutputColumnAux, hn]
          constructor
          · intro hnone
            have hr : firstMatchIdx name rest = none := by
              simpa [firstMatchIdx, hm] using hnone
            have := (ih hgr (j + 1) hs).1 hr
            rw [hstep j hs, this]
            cases hs <;> simp [hasStarIn]
          · intro k hk
            rw [firstMatchIdx] at hk
            simp only [hm, Bool.false_eq_true, if_false, Option.map_eq_some'] at hk
            obtain ⟨k', hk', rfl⟩ := hk
            have := (ih hgr (j + 1) hs).2 k' hk'
            rw [hstep j hs, this]
            simp only [Except.ok.injEq, Int.ofNat.injEq]
            omega

theorem findOutputColumnAux_complex (name : ColName) (pre post : List SelectExpr)
    (ae : SelectExpr) (j : Nat) (hs : Bool)
    (hpre : ∀ item ∈ pre, matchesItem name item = false ∧ complexNoAlias item = false)
    (hc : complexNoAlias ae = true) :
    findOutputColumnAux name (pre ++ ae :: post) j hs =
      .error (.vt12001 "complex expression needs column alias") := by
  induction pre generalizing j hs with
  | nil =>
    cases ae with
    | star => simp [complexNoAlias] at hc
    | aliasedE a =>
      obtain ⟨e, asi⟩ := a
      cases asi with
      | some s => simp [complexNoAlias] at hc
      | none =>
        cases e with
        | col c => simp [complexNoAlias] at hc
        | lit n => rfl
        | maxAgg a => rfl
        | minAgg a => rfl
        | aggr f a => rfl
        | bin op x y => rfl
  | cons item pre' ih =>
    have hitem := hpre item (List.mem_cons_self item pre')
    have hpre' : ∀ it ∈ pre', matchesItem name it = false ∧ complexNoAlias it = false :=
      fun it hit => hpre it (List.mem_cons_of_mem item hit)
    cases item with
    | star =>
      rw [List.cons_append, findOutputColumnAux]
      exact ih (j + 1) true hpre'
    | aliasedE a =>
      obtain ⟨e, asi⟩ := a
      cases asi with
      | some s =>
        have hne : ¬(s = name.name) := by
          intro hh
          have := hitem.1
          simp [matchesItem, hh] at this
        rw [List.cons_append, findOutputColumnAux]
        simp only [hne, if_false]
        exact ih (j + 1) hs hpre'
      | none =>
        obtain ⟨c, hcol⟩ : ∃ c, e = Expr.col c := by
          cases e with
          | col c => exact ⟨c, rfl⟩
          | lit n => simp [complexNoAlias] at hitem
          | maxAgg a => simp [complexNoAlias] at hitem
          | minAgg a => simp [complexNoAlias] at hitem
          | aggr f a => simp [complexNoAlias] at hitem
          | bin op x y => simp [complexNoAlias] at hitem
        subst hcol
        have hne : ¬(name.name = c.name) := by
          intro hh
          have := hitem.1
          simp [matchesItem, hh] at this
        rw [List.cons_append, findOutputColumnAux]
        simp only [hne, if_false]
        exact ih (j + 1) hs hpre'

/-! ### Path lemmas for `Derived.AddColumn` -/

theorem addColumn_reuse_path {α : Type} (sem : OpSem α) (ctx : Ctx)
    (d : Derived α) (col : ColName) (asi : Option String) (r g : Bool) (k : Nat)
    (hr : canReuseColumn ctx d.Columns (.col col) (fun c => .col c) = some k) :
    d.AddColumn sem ctx ⟨.col col, asi⟩ r g = .ok (d, k) := by
  simp [Derived.AddColumn, hr]

theorem addColumn_error_path {α : Type} (sem : OpSem α) (ctx : Ctx)
    (d : Derived α) (col : ColName) (asi : Option String) (r g : Bool)
    (e : VtError)
    (hnr : canReuseColumn ctx d.Columns (.col col) (fun c => .col c) = none)
    (hfo : d.findOutputColumn col = .error e) :
    d.AddColumn sem ctx ⟨.col col, asi⟩ r g = .error e := by
  simp [Derived.AddColumn, hnr, hfo]

theorem addColumn_resolve_path {α : Type} (sem : OpSem α) (ctx : Ctx)
    (d : Derived α) (col : ColName) (asi : Option String) (r g : Bool)
    (i : Int) (l' : List Int) (p : Nat)
    (hnr : canReuseColumn ctx d.Columns (.col col) (fun c => .col c) = none)
    (hfo : d.findOutputColumn col = .ok i)
    (hslice : addToIntSlice d.ColumnsOffset i = (l', p)) :
    (0 ≤ i →
      d.AddColumn sem ctx ⟨.col col, asi⟩ r g =
        .ok ({ d with Columns := d.Columns ++ [col], ColumnsOffset := l' }, p)) ∧
    (i ≤ -1 → ∀ (s' : α) (n : Nat),
      sem.addColumn ctx d.Source (aeWrap (.col (NewColName col.name))) true g = .ok (s', n) →
      d.AddColumn sem ctx ⟨.col col, asi⟩ r g =
        .ok ({ d with Columns := d.Columns ++ [col], ColumnsOffset := l', Source := s' }, p)) ∧
    (i ≤ -1 → ∀ err : VtError,
      sem.addColumn ctx d.Source (aeWrap (.col (NewColName col.name))) true g = .error err →
      d.AddColumn sem ctx ⟨.col col, asi⟩ r g = .error err) := by
  refine ⟨fun hpos => ?_, fun hneg s' n hsem => ?_, fun hneg err hsem => ?_⟩
  · have hni : ¬ (i ≤ -1) := by omega
    simp [Derived.AddColumn, hnr, hfo, hslice, hni]
  · simp [Derived.AddColumn, hnr, hfo, hslice, hneg, hsem]
  · simp [Derived.AddColumn, hnr, hfo, hslice, hneg, hsem]

/-! ### `canBePushedDownIntoDerived` versus the banned-aggregate predicate -/

theorem canBePushedDown_eq_not_bannedAggr (e : Expr) :
    canBePushedDownIntoDerived e = !containsBannedAggr e := by
  induction e with
  | col c => rfl
  | lit n => rfl
  | maxAgg a ih =>
    simpa [canBePushedDownIntoDerived, containsBannedAggr] using ih
  | minAgg a ih =>
    simpa [canBePushedDownIntoDerived, containsBannedAggr] using ih
  | aggr f a ih => rfl
  | bin op l r ihl ihr =>
    simp [canBePushedDownIntoDerived, containsBannedAggr, ihl, ihr]

/-! ### Claim theorems -/

/-- C3: for a Derived node whose source is not a Union and a predicate
attributable to this single relation, pushdown is rejected exactly when the
rewritten expression contains an aggregate function other than `Max`/`Min`:
then a `Filter` wrapping the unmodified node is returned; otherwise the
rewritten expression is forwarded to `Source.AddPredicate` and the Derived
node itself (with the new source) is returned. -/
theorem addPredicate_aggregate_gate {α : Type} (sem : OpSem α) (ctx : Ctx)
    (d : Derived α) (expr : Expr) (ti : TableInfo)
    (hnu : sem.isUnion d.Source = false)
    (hattr : ctx.TableInfoForExpr expr = .ok ti) :
    (containsBannedAggr (ctx.RewriteDerivedTableExpression expr ti) = true →
      d.AddPredicate sem ctx expr = .ok (.filterR d [expr])) ∧
    (containsBannedAggr (ctx.RewriteDerivedTableExpression expr ti) = false →
      ∀ newSrc : α,
        sem.addPredicate ctx d.Source (ctx.RewriteDerivedTableExpression expr ti) = .ok newSrc →
        d.AddPredicate sem ctx expr = .ok (.derivedR { d with Source := newSrc })) := by
  constructor
  · intro hb
    simp [Derived.AddPredicate, hnu, hattr, canBePushedDown_eq_not_bannedAggr, hb]
  · intro hb newSrc hs
    simp [Derived.AddPredicate, hnu, hattr, canBePushedDown_eq_not_bannedAggr, hb, hs]

/-- Witness for C3: a `COUNT`-bearing predicate is wrapped in a Filter with
the node untouched, while a `MAX`-only predicate is pushed into the
source. -/
theorem addPredicate_aggregate_gate_witness :
    dEmpty.AddPredicate semW ctxW (.bin ">" (.aggr "count" (.col yCol)) (.lit 1)) =
      .ok (.filterR dEmpty [.bin ">" (.aggr "count" (.col yCol)) (.lit 1)]) ∧
    dEmpty.AddPredicate semW ctxW (.bin "<" (.maxAgg (.col yCol)) (.lit 10)) =
      .ok (.derivedR { dEmpty with Source := () }) :=
  ⟨(addPredicate_aggregate_gate semW ctxW dEmpty
      (.bin ">" (.aggr "count" (.col yCol)) (.lit 1)) 0 rfl rfl).1 rfl,
   (addPredicate_aggregate_gate semW ctxW dEmpty
      (.bin "<" (.maxAgg (.col yCol)) (.lit 10)) 0 rfl rfl).2 rfl () rfl⟩

/-- C6: for a Derived node whose source is not a Union, when attribution of
the predicate fails with the distinguished not-single-table condition,
`AddPredicate` returns (without error) a Filter whose source is exactly the
unchanged Derived node and whose predicates are exactly the original
expression. -/
theorem addPredicate_not_single_table {α : Type} (sem : OpSem α) (ctx : Ctx)
    (d : Derived α) (expr : Expr)
    (hnu : sem.isUnion d.Source = false)
    (hattr : ctx.TableInfoForExpr expr = .error .errNotSingleTable) :
    d.AddPredicate sem ctx expr = .ok (.filterR d [expr]) := by
  simp [Derived.AddPredicate, hnu, hattr]

/-- Witness for C6. -/
theorem addPredicate_not_single_table_witness :
    dEmpty.AddPredicate semW ctxNS (.col yCol) =
      .ok (.filterR dEmpty [.col yCol]) :=
  addPredicate_not_single_table semW ctxNS dEmpty (.col yCol) rfl rfl

/-- C8: `GetOrdering` fails exactly when `QP` is nil; the failure is the
internal-invariant error `VT13001` (distinct from the user-facing error
kinds `VT12001` and `VT03014`); with `QP` populated it returns
`QP.OrderExprs` (the node is not modified: the operation is a pure read). -/
theorem getOrdering_requires_qp {α : Type} (d : Derived α) :
    ((∃ e, d.GetOrdering = .error e) ↔ d.QP = none) ∧
    (d.QP = none →
      d.GetOrdering = .error (.vt13001 "QP should already be here")) ∧
    (∀ qp, d.QP = some qp → d.GetOrdering = .ok qp.OrderExprs) ∧
    (VtError.vt13001 "QP should already be here").isInternal = true ∧
    (∀ m, (VtError.vt12001 m).isInternal = false) ∧
    (∀ c l, (VtError.vt03014 c l).isInternal = false) := by
  refine ⟨⟨?_, ?_⟩, ?_, ?_, rfl, fun m => rfl, fun c l => rfl⟩
  · rintro ⟨e, he⟩
    cases hqp : d.QP with
    | none => rfl
    | some qp => simp [Derived.GetOrdering, hqp] at he
  · intro hqp
    exact ⟨.vt13001 "QP should already be here", by simp [Derived.GetOrdering, hqp]⟩
  · intro hqp
    simp [Derived.GetOrdering, hqp]
  · intro qp hqp
    simp [Derived.GetOrdering, hqp]

/-- Witness for C8: the unpopulated node fails with the internal error; the
populated node returns its order list. -/
theorem getOrdering_requires_qp_witness :
    dEmpty.GetOrdering = .error (.vt13001 "QP should already be here") ∧
    dQPsome.GetOrdering = .ok [3] :=
  ⟨(getOrdering_requires_qp dEmpty).2.1 rfl,
   (getOrdering_requires_qp dQPsome).2.2.1 ⟨[3]⟩ rfl⟩

/-- C9: `Clone` does not carry over the memoized `QP`: the clone's `QP` is
`none` even when the original's was populated, and `getQP` on the clone
recomputes the projection through `CreateQPFromSelect`, independently of
the original's cache. -/
theorem clone_resets_qp {α : Type} (ctx : Ctx) (d : Derived α)
    (inputs : List α) (h : inputs ≠ []) (s : Select)
    (hq : d.Query = .select s) :
    (d.Clone inputs h).QP = none ∧
    ∀ qp, ctx.CreateQPFromSelect s = .ok qp →
      (d.Clone inputs h).getQP ctx =
        .ok (qp, { d.Clone inputs h with QP := some qp }) := by
  refine ⟨rfl, fun qp hqp => ?_⟩
  simp [Derived.getQP, Derived.Clone, hq, hqp]

/-- Witness for C9: cloning a node with a populated cache yields a clone
with an empty cache whose `getQP` rebuilds the projection from scratch. -/
theorem clone_resets_qp_witness :
    dQPsome.QP = some ⟨[3]⟩ ∧
    (dQPsome.Clone unitInputs unitInputsNe).QP = none ∧
    (dQPsome.Clone unitInputs unitInputsNe).getQP ctxW =
      .ok (⟨[]⟩, { dQPsome.Clone unitInputs unitInputsNe with QP := some ⟨[]⟩ }) :=
  ⟨rfl,
   (clone_resets_qp ctxW dQPsome unitInputs unitInputsNe ⟨[.star]⟩ rfl).1,
   (clone_resets_qp ctxW dQPsome unitInputs unitInputsNe ⟨[.star]⟩ rfl).2 ⟨[]⟩ rfl⟩

/-- C10: `findOutputColumn` returns the complex-expression-needs-alias
error as soon as the scan reaches an alias-less select item whose
expression is not a bare column — regardless of stars already seen or
of anything (matches or stars included) occurring later in the list. -/
theorem findOutputColumn_complex_preempts {α : Type} (d : Derived α)
    (name : ColName) (pre post : List SelectExpr) (ae : SelectExpr)
    (hq : d.Query = .select ⟨pre ++ ae :: post⟩)
    (hpre : ∀ item ∈ pre, matchesItem name item = false ∧ complexNoAlias item = false)
    (hc : complexNoAlias ae = true) :
    d.findOutputColumn name =
      .error (.vt12001 "complex expression needs column alias") := by
  show findOutputColumnQ d.Query name = _
  rw [hq]
  exact findOutputColumnAux_complex name pre post ae 0 false hpre hc

/-- Witness for C10: in `SELECT *, a, 1 + 1, y`, requesting `y` fails with
the complex-expression error although a star precedes the complex item and
`y` is matched by a later item. -/
theorem findOutputColumn_complex_preempts_witness :
    (Derived.mk () 0 none
        (.select ⟨[.star, .aliasedE ⟨.col ⟨"", "a"⟩, none⟩,
          .aliasedE ⟨.bin "+" (.lit 1) (.lit 1), none⟩,
          .aliasedE ⟨.col ⟨"", "y"⟩, none⟩]⟩) "dt" [] [] []).findOutputColumn yCol =
      .error (.vt12001 "complex expression needs column alias") :=
  findOutputColumn_complex_preempts _ yCol
    [.star, .aliasedE ⟨.col ⟨"", "a"⟩, none⟩]
    [.aliasedE ⟨.col ⟨"", "y"⟩, none⟩]
    (.aliasedE ⟨.bin "+" (.lit 1) (.lit 1), none⟩)
    rfl (by decide) rfl

/-- Counterexample to C4 as stated: the select list `SELECT 1 + 1, *`
contains a star and no item matches `y`, yet `findOutputColumn` does not
return `-1` without error — it fails with the complex-expression error,
because the alias-less complex item is hit first. -/
theorem findOutputColumn_star_fallback_cex :
    hasStarIn (GetFirstSelect dCplx.Query).selectExprs = true ∧
    firstMatchIdx yCol (GetFirstSelect dCplx.Query).selectExprs = none ∧
    dCplx.findOutputColumn yCol =
      .error (.vt12001 "complex expression needs column alias") := by
  refine ⟨rfl, rfl, rfl⟩

/-- C4 (amended: provided every alias-less select item is a bare column
reference): an unmatched name resolves to `-1` without error when a star
is present anywhere, fails with the unknown-column "field list" error when
no star is present, and a matched name yields the index of the first
matching item in declaration order. -/
theorem findOutputColumn_resolution {α : Type} (d : Derived α) (name : ColName)
    (hgood : ∀ item ∈ (GetFirstSelect d.Query).selectExprs, complexNoAlias item = false) :
    (firstMatchIdx name (GetFirstSelect d.Query).selectExprs = none →
      hasStarIn (GetFirstSelect d.Query).selectExprs = true →
      d.findOutputColumn name = .ok (-1)) ∧
    (firstMatchIdx name (GetFirstSelect d.Query).selectExprs = none →
      hasStarIn (GetFirstSelect d.Query).selectExprs = false →
      d.findOutputColumn name = .error (.vt03014 name.name "field list")) ∧
    (∀ k, firstMatchIdx name (GetFirstSelect d.Query).selectExprs = some k →
      d.findOutputColumn name = .ok (Int.ofNat k)) := by
  have hch := findOutputColumnAux_chars name (GetFirstSelect d.Query).selectExprs hgood 0 false
  refine ⟨fun hnone hstar => ?_, fun hnone hstar => ?_, fun k hk => ?_⟩
  · have := hch.1 hnone
    show findOutputColumnQ d.Query name = _
    rw [findOutputColumnQ, this, hstar]
    rfl
  · have := hch.1 hnone
    show findOutputColumnQ d.Query name = _
    rw [findOutputColumnQ, this, hstar]
    rfl
  · have := hch.2 k hk
    show findOutputColumnQ d.Query name = _
    rw [findOutputColumnQ, this]
    simp

/-- Witness for the amended C4: over `SELECT a, *`, the unmatched `y`
resolves to `-1`; over `SELECT a` (no star), `y` is an unknown column;
the matched `a` yields index `0`. -/
theorem findOutputColumn_resolution_witness :
    (Derived.mk () 0 none
        (.select ⟨[.aliasedE ⟨.col ⟨"", "a"⟩, none⟩, .star]⟩)
        "dt" [] [] []).findOutputColumn yCol = .ok (-1) ∧
    dQA.findOutputColumn yCol = .error (.vt03014 "y" "field list") ∧
    dQA.findOutputColumn ⟨"", "a"⟩ = .ok 0 := by
  refine ⟨(findOutputColumn_resolution _ yCol (by decide)).1 rfl rfl,
    ?_, ?_⟩
  · have h := (findOutputColumn_resolution dQA yCol (by decide)).2.1 rfl rfl
    simpa [yCol] using h
  · exact (findOutputColumn_resolution dQA ⟨"", "a"⟩ (by decide)).2.2 0 rfl

/-- C7: `Clone` installs the supplied input as source, carries over
`Query`, `Alias` and `TableId` without duplication, and gives the clone
fresh backing arrays for `Columns`, `ColumnsOffset` and `ColumnAliases`
holding copies of the original's contents — so the two nodes share no
mutable container, and overwriting (in particular appending through) one
node's array never changes what the other node reads. -/
theorem clone_container_independence (st : Store) (d : DerivedH) (input : Nat)
    (hv1 : d.ColumnAliasesRef < st.strArrays.length)
    (hv2 : d.ColumnsRef < st.colArrays.length)
    (hv3 : d.ColumnsOffsetRef < st.intArrays.length)
    (st' : Store) (d' : DerivedH)
    (hcl : DerivedH.Clone st d input = (st', d')) :
    d'.Source = input ∧ d'.Query = d.Query ∧ d'.Alias = d.Alias ∧
    d'.TableId = d.TableId ∧ d'.QP = none ∧
    st'.getCols d'.ColumnsRef = st.getCols d.ColumnsRef ∧
    st'.getInts d'.ColumnsOffsetRef = st.getInts d.ColumnsOffsetRef ∧
    st'.getStrs d'.ColumnAliasesRef = st.getStrs d.ColumnAliasesRef ∧
    st'.getCols d.ColumnsRef = st.getCols d.ColumnsRef ∧
    st'.getInts d.ColumnsOffsetRef = st.getInts d.ColumnsOffsetRef ∧
    st'.getStrs d.ColumnAliasesRef = st.getStrs d.ColumnAliasesRef ∧
    d'.ColumnsRef ≠ d.ColumnsRef ∧
    d'.ColumnsOffsetRef ≠ d.ColumnsOffsetRef ∧
    d'.ColumnAliasesRef ≠ d.ColumnAliasesRef ∧
    (∀ v, (st'.setCols d'.ColumnsRef v).getCols d.ColumnsRef =
      st'.getCols d.ColumnsRef) ∧
    (∀ v, (st'.setCols d.ColumnsRef v).getCols d'.ColumnsRef =
      st'.getCols d'.ColumnsRef) ∧
    (∀ v, (st'.setInts d'.ColumnsOffsetRef v).getInts d.ColumnsOffsetRef =
      st'.getInts d.ColumnsOffsetRef) ∧
    (∀ v, (st'.setInts d.ColumnsOffsetRef v).getInts d'.ColumnsOffsetRef =
      st'.getInts d'.ColumnsOffsetRef) ∧
    (∀ v, (st'.setStrs d'.ColumnAliasesRef v).getStrs d.ColumnAliasesRef =
      st'.getStrs d.ColumnAliasesRef) ∧
    (∀ v, (st'.setStrs d.ColumnAliasesRef v).getStrs d'.ColumnAliasesRef =
      st'.getStrs d'.ColumnAliasesRef) := by
  have e1 : DerivedH.Clone st d input =
      (⟨st.colArrays ++ [st.getCols d.ColumnsRef],
        st.intArrays ++ [st.getInts d.ColumnsOffsetRef],
        st.strArrays ++ [st.getStrs d.ColumnAliasesRef]⟩,
       ⟨input, d.TableId, none, d.Query, d.Alias,
        st.strArrays.length, st.colArrays.length, st.intArrays.length⟩) := rfl
  rw [e1] at hcl
  injection hcl with h1 h2
  subst h1
  subst h2
  refine ⟨rfl, rfl, rfl, rfl, rfl, ?_, ?_, ?_, ?_, ?_, ?_, ?_, ?_, ?_,
    ?_, ?_, ?_, ?_, ?_, ?_⟩
  · exact listGetD_append_self st.colArrays (st.getCols d.ColumnsRef) []
  · exact listGetD_append_self st.intArrays (st.getInts d.ColumnsOffsetRef) []
  · exact listGetD_append_self st.strArrays (st.getStrs d.ColumnAliasesRef) []
  · exact listGetD_append_lt st.colArrays _ d.ColumnsRef [] hv2
  · exact listGetD_append_lt st.intArrays _ d.ColumnsOffsetRef [] hv3
  · exact listGetD_append_lt st.strArrays _ d.ColumnAliasesRef [] hv1
  · show st.colArrays.length ≠ d.ColumnsRef
    omega
  · show st.intArrays.length ≠ d.ColumnsOffsetRef
    omega
  · show st.strArrays.length ≠ d.ColumnAliasesRef
    omega
  · intro v
    exact listGetD_set_ne _ st.colArrays.length d.ColumnsRef v [] (by omega)
  · intro v
    exact listGetD_set_ne _ d.ColumnsRef st.colArrays.length v [] (by omega)
  · intro v
    exact listGetD_set_ne _ st.intArrays.length d.ColumnsOffsetRef v [] (by omega)
  · intro v
    exact listGetD_set_ne _ d.ColumnsOffsetRef st.intArrays.length v [] (by omega)
  · intro v
    exact listGetD_set_ne _ st.strArrays.length d.ColumnAliasesRef v [] (by omega)
  · intro v
    exact listGetD_set_ne _ d.ColumnAliasesRef st.strArrays.length v [] (by omega)

/-- Witness for C7 at a concrete store: the clone reads the same contents
through a distinct reference, and appending to the clone's array leaves
the original's view unchanged. -/
theorem clone_container_independence_witness :
    (DerivedH.Clone st0 dH0 7).2.Source = 7 ∧
    (DerivedH.Clone st0 dH0 7).2.ColumnsRef ≠ dH0.ColumnsRef ∧
    ((DerivedH.Clone st0 dH0 7).1.setCols (DerivedH.Clone st0 dH0 7).2.ColumnsRef
        [⟨"", "c"⟩, ⟨"", "d"⟩]).getCols dH0.ColumnsRef =
      (DerivedH.Clone st0 dH0 7).1.getCols dH0.ColumnsRef := by
  have h := clone_container_independence st0 dH0 7 (by decide) (by decide)
    (by decide) (DerivedH.Clone st0 dH0 7).1 (DerivedH.Clone st0 dH0 7).2 rfl
  obtain ⟨hs, _, _, _, _, _, _, _, _, _, _, hne, _, _, hmut, _⟩ := h
  exact ⟨hs, hne, hmut [⟨"", "c"⟩, ⟨"", "d"⟩]⟩

/-- Counterexample to C1 as stated: from the empty node over `SELECT *`,
the calls for `y` then `z` each succeed with offset `0` (the `-1` offset
slot is deduplicated), but repeating the call for `z` — the very same
column — returns offset `1`, not the `0` the first `z` call returned. -/
theorem addColumn_idempotent_cex :
    dEmpty.AddColumn semW ctxW ⟨.col yCol, none⟩ true false = .ok (dY, 0) ∧
    dY.AddColumn semW ctxW ⟨.col zCol, none⟩ true false = .ok (dYZ, 0) ∧
    dYZ.AddColumn semW ctxW ⟨.col zCol, none⟩ true false = .ok (dYZ, 1) ∧
    (0 : Nat) ≠ 1 := by
  refine ⟨?_, ?_, ?_, by decide⟩ <;> decide

/-- C1 (amended: provided that, before the first call, `len(Columns) =
len(ColumnsOffset)` and — on the non-reuse path — the resolved select-list
index is not yet recorded in `ColumnsOffset`): a second `AddColumn` for a
column the context's equivalence test cannot distinguish from the first
returns the same node (so `len(Columns)` is unchanged and no duplicate is
appended) and the same offset. -/
theorem addColumn_repeat_same_offset {α : Type} (sem : OpSem α) (ctx : Ctx)
    (d d' : Derived α) (col col' : ColName) (as1 as2 : Option String)
    (r1 r2 g1 g2 : Bool) (k : Nat)
    (hcong : ∀ e, ctx.EqualsExprWithDeps (.col col') e = ctx.EqualsExprWithDeps (.col col) e)
    (hrefl : ctx.EqualsExprWithDeps (.col col) (.col col) = true)
    (hlen : d.Columns.length = d.ColumnsOffset.length)
    (hfresh : ∀ i, canReuseColumn ctx d.Columns (.col col) (fun c => .col c) = none →
      d.findOutputColumn col = .ok i → i ∉ d.ColumnsOffset)
    (h1 : d.AddColumn sem ctx ⟨.col col, as1⟩ r1 g1 = .ok (d', k)) :
    d'.AddColumn sem ctx ⟨.col col', as2⟩ r2 g2 = .ok (d', k) := by
  cases hr : canReuseColumn ctx d.Columns (.col col) (fun c => .col c) with
  | some k0 =>
    rw [addColumn_reuse_path sem ctx d col as1 r1 g1 k0 hr] at h1
    simp only [Except.ok.injEq, Prod.mk.injEq] at h1
    obtain ⟨h1a, h1b⟩ := h1
    subst h1a
    subst h1b
    refine addColumn_reuse_path sem ctx d col' as2 r2 g2 k0 ?_
    rw [canReuseColumn_congr ctx (.col col) (.col col') (fun c => .col c)
      d.Columns hcong, hr]
  | none =>
    cases hfo : d.findOutputColumn col with
    | error e =>
      rw [addColumn_error_path sem ctx d col as1 r1 g1 e hr hfo] at h1
      simp at h1
    | ok i =>
      have hnm : i ∉ d.ColumnsOffset := hfresh i hr hfo
      have hslice := addToIntSlice_not_mem d.ColumnsOffset i hnm
      have hpath := addColumn_resolve_path sem ctx d col as1 r1 g1 i
        (d.ColumnsOffset ++ [i]) d.ColumnsOffset.length hr hfo hslice
      have hreuse2 : canReuseColumn ctx (d.Columns ++ [col]) (.col col')
          (fun c => .col c) = some d.ColumnsOffset.length := by
        rw [canReuseColumn_congr ctx (.col col) (.col col') (fun c => .col c)
          (d.Columns ++ [col]) hcong,
          canReuseColumn_append_last ctx (.col col) (fun c => .col c)
            d.Columns col hr hrefl, hlen]
      rcases le_or_lt i (-1) with hneg | hposlt
      · cases hsem : sem.addColumn ctx d.Source
            (aeWrap (.col (NewColName col.name))) true g1 with
        | error err =>
          rw [hpath.2.2 hneg err hsem] at h1
          simp at h1
        | ok pr =>
          obtain ⟨s', n⟩ := pr
          rw [hpath.2.1 hneg s' n hsem] at h1
          simp only [Except.ok.injEq, Prod.mk.injEq] at h1
          obtain ⟨h1a, h1b⟩ := h1
          subst h1a
          subst h1b
          exact addColumn_reuse_path sem ctx _ col' as2 r2 g2 _ hreuse2
      · have hpos : (0 : Int) ≤ i := by omega
        rw [hpath.1 hpos] at h1
        simp only [Except.ok.injEq, Prod.mk.injEq] at h1
        obtain ⟨h1a, h1b⟩ := h1
        subst h1a
        subst h1b
        exact addColumn_reuse_path sem ctx _ col' as2 r2 g2 _ hreuse2

/-- Witness for the amended C1: from the empty node, adding `y` and then
`y` again returns the same offset `0` and the same node. -/
theorem addColumn_repeat_same_offset_witness :
    dEmpty.AddColumn semW ctxW ⟨.col yCol, none⟩ true false = .ok (dY, 0) ∧
    dY.AddColumn semW ctxW ⟨.col yCol, none⟩ true false = .ok (dY, 0) := by
  constructor
  · decide
  · refine addColumn_repeat_same_offset semW ctxW dEmpty dY yCol yCol none none
      true true false false 0 (fun e => rfl) (by decide) rfl ?_ (by decide)
    intro i _ _
    simp [dEmpty]

/-- Counterexample to C2 as stated: `dY` (reachable from the empty node by
one `AddColumn`) satisfies the length invariant, and a successful
`AddColumn` for the distinct column `z` — which resolves to the already
recorded select-list index `-1` — breaks it: `Columns` has 2 entries,
`ColumnsOffset` still 1. -/
theorem columns_length_invariant_cex :
    dY.Columns.length = dY.ColumnsOffset.length ∧
    dY.AddColumn semW ctxW ⟨.col zCol, none⟩ true false = .ok (dYZ, 0) ∧
    dYZ.Columns.length = 2 ∧
    dYZ.ColumnsOffset.length = 1 := by
  refine ⟨rfl, ?_, rfl, rfl⟩
  decide

/-- C2 (amended: the invariant `len(Columns) = len(ColumnsOffset)` holds
initially and is preserved by every successful `AddColumn` that either
reuses an existing column or resolves to a select-list index not already
recorded in `ColumnsOffset`; when a new column resolves to an
already-recorded index, `Columns` grows while `ColumnsOffset` does not). -/
theorem addColumn_preserves_length {α : Type} (sem : OpSem α) (ctx : Ctx)
    (d d' : Derived α) (e : AliasedExpr) (r g : Bool) (k : Nat)
    (hlen : d.Columns.length = d.ColumnsOffset.length)
    (hfresh : ∀ c i, e.expr = .col c →
      canReuseColumn ctx d.Columns (.col c) (fun x => .col x) = none →
      d.findOutputColumn c = .ok i → i ∉ d.ColumnsOffset)
    (hok : d.AddColumn sem ctx e r g = .ok (d', k)) :
    d'.Columns.length = d'.ColumnsOffset.length := by
  obtain ⟨ee, asi⟩ := e
  cases ee with
  | col c =>
    cases hr : canReuseColumn ctx d.Columns (.col c) (fun x => .col x) with
    | some k0 =>
      rw [addColumn_reuse_path sem ctx d c asi r g k0 hr] at hok
      simp only [Except.ok.injEq, Prod.mk.injEq] at hok
      obtain ⟨h1a, _⟩ := hok
      subst h1a
      exact hlen
    | none =>
      cases hfo : d.findOutputColumn c with
      | error er =>
        rw [addColumn_error_path sem ctx d c asi r g er hr hfo] at hok
        simp at hok
      | ok i =>
        have hnm : i ∉ d.ColumnsOffset := hfresh c i rfl hr hfo
        have hslice := addToIntSlice_not_mem d.ColumnsOffset i hnm
        have hpath := addColumn_resolve_path sem ctx d c asi r g i
          (d.ColumnsOffset ++ [i]) d.ColumnsOffset.length hr hfo hslice
        rcases le_or_lt i (-1) with hneg | hposlt
        · cases hsem : sem.addColumn ctx d.Source
              (aeWrap (.col (NewColName c.name))) true g with
          | error err =>
            rw [hpath.2.2 hneg err hsem] at hok
            simp at hok
          | ok pr =>
            obtain ⟨s', n⟩ := pr
            rw [hpath.2.1 hneg s' n hsem] at hok
            simp only [Except.ok.injEq, Prod.mk.injEq] at hok
            obtain ⟨h1a, _⟩ := hok
            subst h1a
            simp [List.length_append, hlen]
        · have hpos : (0 : Int) ≤ i := by omega
          rw [hpath.1 hpos] at hok
          simp only [Except.ok.injEq, Prod.mk.injEq] at hok
          obtain ⟨h1a, _⟩ := hok
          subst h1a
          simp [List.length_append, hlen]
  | lit n => simp [Derived.AddColumn] at hok
  | maxAgg a => simp [Derived.AddColumn] at hok
  | minAgg a => simp [Derived.AddColumn] at hok
  | aggr f a => simp [Derived.AddColumn] at hok
  | bin op x y => simp [Derived.AddColumn] at hok

/-- Witness for the amended C2: adding `y` to the empty node (fresh index
`-1`) keeps the lengths equal. -/
theorem addColumn_preserves_length_witness :
    dY.Columns.length = dY.ColumnsOffset.length := by
  refine addColumn_preserves_length semW ctxW dEmpty dY ⟨.col yCol, none⟩
    true false 0 rfl ?_ (by decide)
  intro c i _ _ _
  simp [dEmpty]

/-- C5: when two successive `AddColumn` calls for semantically distinct
columns both resolve to the same select-list index `i` (not yet recorded),
the index is recorded exactly once in `ColumnsOffset`, both calls return
the offset of that single shared slot, and `Columns` gains one distinct
entry per call. -/
theorem addColumn_shared_offset_slot {α : Type} (sem : OpSem α) (ctx : Ctx)
    (d : Derived α) (col1 col2 : ColName) (as1 as2 : Option String)
    (r1 r2 g1 g2 : Bool) (i : Int)
    (hsrc : ∀ (s : α) (ae : AliasedExpr) (b1 b2 : Bool),
      ∃ s' n, sem.addColumn ctx s ae b1 b2 = .ok (s', n))
    (hfo1 : d.findOutputColumn col1 = .ok i)
    (hfo2 : d.findOutputColumn col2 = .ok i)
    (hfresh : i ∉ d.ColumnsOffset)
    (hnr1 : canReuseColumn ctx d.Columns (.col col1) (fun c => .col c) = none)
    (hnr2 : canReuseColumn ctx (d.Columns ++ [col1]) (.col col2) (fun c => .col c) = none)
    (hrefl2 : ctx.EqualsExprWithDeps (.col col2) (.col col2) = true) :
    ∃ d1 d2,
      d.AddColumn sem ctx ⟨.col col1, as1⟩ r1 g1 = .ok (d1, d.ColumnsOffset.length) ∧
      d1.AddColumn sem ctx ⟨.col col2, as2⟩ r2 g2 = .ok (d2, d.ColumnsOffset.length) ∧
      d2.ColumnsOffset = d.ColumnsOffset ++ [i] ∧
      d2.ColumnsOffset.count i = 1 ∧
      d2.Columns = d.Columns ++ [col1, col2] ∧
      col1 ≠ col2 := by
  have hcount : (d.ColumnsOffset ++ [i]).count i = 1 := by
    have h0 : d.ColumnsOffset.count i = 0 := List.count_eq_zero.mpr hfresh
    simp [List.count_append, h0]
  have hne12 : col1 ≠ col2 := by
    intro hEq
    have hne := canReuseColumnAux_none ctx (.col col2) (fun c => Expr.col c)
      (d.Columns ++ [col1]) 0 hnr2 col1 (by simp)
    rw [hEq] at hne
    rw [hrefl2] at hne
    simp at hne
  have hslice1 := addToIntSlice_not_mem d.ColumnsOffset i hfresh
  have hpath1 := addColumn_resolve_path sem ctx d col1 as1 r1 g1 i
    (d.ColumnsOffset ++ [i]) d.ColumnsOffset.length hnr1 hfo1 hslice1
  rcases le_or_lt i (-1) with hneg | hposlt
  · obtain ⟨s1, n1, hsem1⟩ := hsrc d.Source (aeWrap (.col (NewColName col1.name))) true g1
    have h1 := hpath1.2.1 hneg s1 n1 hsem1
    have hfo2a : (⟨s1, d.TableId, d.QP, d.Query, d.Alias, d.ColumnAliases,
        d.Columns ++ [col1], d.ColumnsOffset ++ [i]⟩ : Derived α).findOutputColumn col2 = .ok i := hfo2
    have hslice2 : addToIntSlice (d.ColumnsOffset ++ [i]) i =
        (d.ColumnsOffset ++ [i], d.ColumnsOffset.length) :=
      addToIntSlice_append_self d.ColumnsOffset i hfresh
    have hpath2 := addColumn_resolve_path sem ctx
      (⟨s1, d.TableId, d.QP, d.Query, d.Alias, d.ColumnAliases,
        d.Columns ++ [col1], d.ColumnsOffset ++ [i]⟩ : Derived α)
      col2 as2 r2 g2 i (d.ColumnsOffset ++ [i]) d.ColumnsOffset.length
      hnr2 hfo2a hslice2
    obtain ⟨s2, n2, hsem2⟩ := hsrc s1 (aeWrap (.col (NewColName col2.name))) true g2
    have h2 := hpath2.2.1 hneg s2 n2 hsem2
    refine ⟨_, _, h1, h2, rfl, ?_, ?_, hne12⟩
    · exact hcount
    · simp
  · have hpos : (0 : Int) ≤ i := by omega
    have h1 := hpath1.1 hpos
    have hfo2a : (⟨d.Source, d.TableId, d.QP, d.Query, d.Alias, d.ColumnAliases,
        d.Columns ++ [col1], d.ColumnsOffset ++ [i]⟩ : Derived α).findOutputColumn col2 = .ok i := hfo2
    have hslice2 : addToIntSlice (d.ColumnsOffset ++ [i]) i =
        (d.ColumnsOffset ++ [i], d.ColumnsOffset.length) :=
      addToIntSlice_append_self d.ColumnsOffset i hfresh
    have hpath2 := addColumn_resolve_path sem ctx
      (⟨d.Source, d.TableId, d.QP, d.Query, d.Alias, d.ColumnAliases,
        d.Columns ++ [col1], d.ColumnsOffset ++ [i]⟩ : Derived α)
      col2 as2 r2 g2 i (d.ColumnsOffset ++ [i]) d.ColumnsOffset.length
      hnr2 hfo2a hslice2
    have h2 := hpath2.1 hpos
    refine ⟨_, _, h1, h2, rfl, ?_, ?_, hne12⟩
    · exact hcount
    · simp

/-- Witness for C5: over `SELECT a`, the distinct columns `t1.a` and
`t2.a` both resolve to select-list index `0`; the two calls share one
offset slot and `Columns` records both. -/
theorem addColumn_shared_offset_slot_witness :
    ∃ d1 d2,
      dQA.AddColumn semW ctxW ⟨.col t1a, none⟩ true false = .ok (d1, dQA.ColumnsOffset.length) ∧
      d1.AddColumn semW ctxW ⟨.col t2a, none⟩ true false = .ok (d2, dQA.ColumnsOffset.length) ∧
      d2.ColumnsOffset = dQA.ColumnsOffset ++ [0] ∧
      d2.ColumnsOffset.count 0 = 1 ∧
      d2.Columns = dQA.Columns ++ [t1a, t2a] ∧
      t1a ≠ t2a :=
  addColumn_shared_offset_slot semW ctxW dQA t1a t2a none none true true
    false false 0 (fun s ae b1 b2 => ⟨s, 0, rfl⟩) (by decide) (by decide)
    (by simp [dQA]) (by decide) (by decide) (by decide)

end Vitess
